import Mathlib

/-!
Verification development for the PPO updater
(`habitat_baselines/rl/ppo/ppo.py`).

The tensor arithmetic of the updater is embedded shallowly over `ℚ`
(tensors become `List ℚ`, elementwise ops become `List.zipWith` /
`List.map`).  The only irrational operations of the source —
`torch.rsqrt` in advantage normalization and `torch.exp` in the
importance ratio — are handled by passing the reciprocal square root as
a function parameter constrained by its defining equation in theorems,
and by using `Real.exp` directly in theorem statements.
-/

namespace PPOSpec

/-- Constant `EPS_PPO = 1e-5` from the source. -/
def EPS_PPO : ℚ := 1 / 100000

/-- Mean of a list of rationals (`torch.mean`); the empty list gives `0`
(division by zero in `ℚ`). -/
def qmean (l : List ℚ) : ℚ := l.sum / l.length

/-- Unbiased sample variance (`torch.var_mean`'s variance, default
`unbiased=True`): sum of squared deviations divided by `n - 1`. -/
def qvar (l : List ℚ) : ℚ :=
  (l.map (fun x => (x - qmean l) ^ 2)).sum / ((l.length : ℚ) - 1)

/-- Clamp `torch.clamp(x, lo, hi) = min(max(x, lo), hi)`. -/
def clampQ (x lo hi : ℚ) : ℚ := min (max x lo) hi

/-! Value loss (source lines 251–268)

`values` is the newly evaluated value, `value_preds` the stored old
prediction, `returns` the target.  With `use_clipped_value_loss` the
change in value is clamped to `[-clip_param, clip_param]` and the
unclipped value is kept exactly when `|delta| < clip_param`
(`torch.where(delta.abs() < self.clip_param, values, value_pred_clipped)`).
-/

/-- Per-element value used in the squared error, following the
`use_clipped_value_loss` branch of `_update_from_batch`. -/
def value_pred_selected (use_clip : Bool) (clip v vp : ℚ) : ℚ :=
  if use_clip then
    let delta := v - vp
    let value_pred_clipped := vp + clampQ delta (-clip) clip
    if |delta| < clip then v else value_pred_clipped
  else v

/-- Per-element value loss `0.5 * F.mse_loss(values, returns)`. -/
def value_loss_elem (use_clip : Bool) (clip v vp ret : ℚ) : ℚ :=
  1 / 2 * (value_pred_selected use_clip clip v vp - ret) ^ 2

/-- C2: with `use_clipped_value_loss` and `clip_param > 0`, the value used
in the squared-error value loss is the unclipped new value exactly when
`|new_value - old_value_pred| < clip_param` (strict), and otherwise the
clipped candidate `old_value_pred + clamp(new_value - old_value_pred,
-clip_param, clip_param)`; the loss is `0.5` times the squared error
between the selected value and the returns. -/
theorem c2_value_clip_selection (clip v vp ret : ℚ) (hc : 0 < clip) :
    (|v - vp| < clip → value_pred_selected true clip v vp = v) ∧
    (clip ≤ |v - vp| →
      value_pred_selected true clip v vp = vp + clampQ (v - vp) (-clip) clip) ∧
    value_loss_elem true clip v vp ret =
      1 / 2 * (value_pred_selected true clip v vp - ret) ^ 2 := by
  refine ⟨fun h => ?_, fun h => ?_, rfl⟩
  · simp [value_pred_selected, h]
  · simp [value_pred_selected, not_lt.mpr h]

/-- Witness for `c2_value_clip_selection`: at `clip = 1/5`, the input
`(v, vp) = (1, 9/10)` (small change) keeps the new value verbatim, and
`(v, vp) = (2, 1)` (large change) selects the clipped candidate
`1 + 1/5`. -/
theorem c2_value_clip_selection_witness :
    value_pred_selected true (1/5) 1 (9/10) = 1 ∧
    value_pred_selected true (1/5) 2 1 = 1 + clampQ (2 - 1) (-(1/5)) (1/5) := by
  constructor
  · exact (c2_value_clip_selection (1/5) 1 (9/10) 0 (by norm_num)).1
      (abs_lt.mpr (by norm_num))
  · exact (c2_value_clip_selection (1/5) 2 1 0 (by norm_num)).2.1
      (le_abs.mpr (Or.inl (by norm_num)))

/-! Loss reduction (source lines 270–280)

When the batch carries `is_coeffs`, the reduction is
`mean(is_coeffs.clamp(max=1.0) * t)`; otherwise `torch.mean`.  The same
`mean_fn` is then mapped over `(action_loss, value_loss, dist_entropy)`.
An absent field is modelled by `Option`.
-/

/-- The per-batch reduction function `mean_fn`. -/
def mean_fn (is_coeffs : Option (List ℚ)) (t : List ℚ) : ℚ :=
  match is_coeffs with
  | some cs => qmean (List.zipWith (fun c x => min c 1 * x) cs t)
  | none => qmean t

/-- Application of `mean_fn` to the three elementwise loss terms, as in
`action_loss, value_loss, dist_entropy = map(mean_fn, ...)`. -/
def reduce_losses (is_coeffs : Option (List ℚ))
    (action_loss value_loss dist_entropy : List ℚ) : ℚ × ℚ × ℚ :=
  (mean_fn is_coeffs action_loss,
   mean_fn is_coeffs value_loss,
   mean_fn is_coeffs dist_entropy)

/-- C3: the same reduction function is applied to all three elementwise
loss terms; with `is_coeffs` present each term reduces to
`mean(clamp(is_coeffs, max 1.0) * term)`, without it to the plain mean,
and the clamp to at most `1.0` happens before the coefficients are used
(re-clamping already-clamped coefficients changes nothing). -/
theorem c3_reduction_rule (is_coeffs : Option (List ℚ))
    (action_loss value_loss dist_entropy : List ℚ) :
    reduce_losses is_coeffs action_loss value_loss dist_entropy =
      (mean_fn is_coeffs action_loss,
       mean_fn is_coeffs value_loss,
       mean_fn is_coeffs dist_entropy) ∧
    (∀ cs t, mean_fn (some cs) t =
      qmean (List.zipWith (fun c x => c * x) (cs.map (fun c => min c 1)) t)) ∧
    (∀ cs t, mean_fn (some cs) t = mean_fn (some (cs.map (fun c => min c 1))) t) ∧
    (∀ t, mean_fn none t = qmean t) := by
  refine ⟨rfl, fun cs t => ?_, fun cs t => ?_, fun t => rfl⟩
  · simp only [mean_fn, List.zipWith_map_left]
  · simp only [mean_fn, List.zipWith_map_left]
    have h : (fun (a : ℚ) (b : ℚ) => min (min a 1) 1 * b) =
        fun (a : ℚ) (b : ℚ) => min a 1 * b := by
      funext a b
      rw [min_assoc, min_self]
    rw [h]

/-! Clipped surrogate policy loss (source lines 239–249)

`ratio = torch.exp(action_log_probs - batch["action_log_probs"])`,
`surr1 = advantages * ratio`,
`surr2 = advantages * clamp(ratio, 1 - clip_param, 1 + clip_param)`,
`action_loss = -min(surr1, surr2)` elementwise.  The exponential is
irrational, so the post-`exp` pipeline takes the ratio list as input;
the ratio itself appears as `Real.exp` in theorem statements.
-/

/-- Elementwise `surr1 = advantages * ratio`. -/
def surr1 (advantages ratio : List ℚ) : List ℚ :=
  List.zipWith (fun a r => a * r) advantages ratio

/-- Elementwise `surr2 = advantages * clamp(ratio, 1-clip, 1+clip)`. -/
def surr2 (clip : ℚ) (advantages ratio : List ℚ) : List ℚ :=
  List.zipWith (fun a r => a * clampQ r (1 - clip) (1 + clip)) advantages ratio

/-- Elementwise `action_loss = -min(surr1, surr2)`. -/
def action_loss_elems (clip : ℚ) (advantages ratio : List ℚ) : List ℚ :=
  List.zipWith (fun s1 s2 => -min s1 s2) (surr1 advantages ratio)
    (surr2 clip advantages ratio)

/-- C5: when the newly evaluated log-probabilities equal the stored ones
elementwise, the importance ratio `exp(new - old)` is exactly `1` at
every element, and for every `clip_param > 0` the elementwise
pre-reduction action loss at ratio `1` is the negated advantages. -/
theorem c5_ratio_identity (new_lp old_lp advantages : List ℚ) (clip : ℚ)
    (hc : 0 < clip) (h : new_lp = old_lp) :
    List.zipWith (fun (a b : ℚ) => Real.exp ((a : ℝ) - (b : ℝ))) new_lp old_lp =
      List.replicate new_lp.length (1 : ℝ) ∧
    action_loss_elems clip advantages (List.replicate advantages.length 1) =
      advantages.map (fun a => -a) := by
  constructor
  · subst h
    induction new_lp with
    | nil => rfl
    | cons a l ih =>
      simp only [List.zipWith_cons_cons, List.length_cons, List.replicate_succ,
        ih, sub_self, Real.exp_zero]
  · have h1 : clampQ 1 (1 - clip) (1 + clip) = 1 := by
      unfold clampQ
      rw [max_eq_left (by linarith), min_eq_left (by linarith)]
    induction advantages with
    | nil => rfl
    | cons a l ih =>
      simp only [action_loss_elems, surr1, surr2, List.length_cons,
        List.replicate_succ, List.zipWith_cons_cons, List.map_cons] at ih ⊢
      rw [ih, h1, mul_one, min_self]

/-- Witness for `c5_ratio_identity` at `clip = 1/5`, log-probs
`[1/2, -2]` on both sides and advantages `[3, -4]`. -/
theorem c5_ratio_identity_witness :
    List.zipWith (fun (a b : ℚ) => Real.exp ((a : ℝ) - (b : ℝ)))
        [(1:ℚ)/2, -2] [(1:ℚ)/2, -2] = List.replicate 2 (1 : ℝ) ∧
    action_loss_elems (1/5) [3, -4] (List.replicate 2 1) =
      [(-3 : ℚ), 4] := by
  have h := c5_ratio_identity [(1:ℚ)/2, -2] [(1:ℚ)/2, -2] [3, -4] (1/5)
    (by norm_num) rfl
  refine ⟨h.1, ?_⟩
  have h2 := h.2
  rw [show (([3, -4] : List ℚ).length) = 2 from rfl] at h2
  rw [h2]
  rfl

/-! Fraction-clipped diagnostic (source lines 333–337)

`(ratio > (1.0 + clip_param)).float().mean() +
 (ratio < (1.0 - clip_param)).float().mean()`,
appended to `learner_metrics["ppo_fraction_clipped"]` only when
`epoch == self.ppo_epoch - 1`, inside the epoch loop
`for epoch in range(self.ppo_epoch)` of `update`.
-/

/-- The fraction-clipped diagnostic: mean of the strict-above indicator
plus mean of the strict-below indicator. -/
def fraction_clipped (clip : ℚ) (ratio : List ℚ) : ℚ :=
  qmean (ratio.map (fun r => if 1 + clip < r then (1 : ℚ) else 0)) +
    qmean (ratio.map (fun r => if r < 1 - clip then (1 : ℚ) else 0))

/-- One minibatch's effect on the `ppo_fraction_clipped` metric list:
appended only when `epoch = ppo_epoch - 1`. -/
def append_clip_fraction (ppo_epoch epoch : ℕ) (clip : ℚ) (ratio : List ℚ)
    (metrics : List ℚ) : List ℚ :=
  if epoch = ppo_epoch - 1 then metrics ++ [fraction_clipped clip ratio]
  else metrics

/-- The `ppo_fraction_clipped` metric list after the epoch loop of
`update` (one minibatch per epoch, with `ratios e` the ratio tensor seen
at epoch `e`). -/
def clip_metric_after_update (ppo_epoch : ℕ) (clip : ℚ)
    (ratios : ℕ → List ℚ) : List ℚ :=
  (List.range ppo_epoch).foldl
    (fun metrics e => append_clip_fraction ppo_epoch e clip (ratios e) metrics) []

/-- Sum of an if-then-else indicator map equals the length of the filter. -/
theorem sum_indicator_eq_count (p : ℚ → Prop) [DecidablePred p] (l : List ℚ) :
    (l.map (fun r => if p r then (1 : ℚ) else 0)).sum =
      ((l.filter (fun r => decide (p r))).length : ℚ) := by
  induction l with
  | nil => rfl
  | cons a l ih =>
    by_cases h : p a
    · simp [List.filter_cons, h, ih, add_comm]
    · simp [List.filter_cons, h, ih]

/-- Folding `append_clip_fraction` over epochs that are all different
from the final one leaves the metric list unchanged. -/
theorem foldl_append_clip_of_ne (ppo_epoch : ℕ) (clip : ℚ)
    (ratios : ℕ → List ℚ) (l : List ℕ) (m : List ℚ)
    (h : ∀ e ∈ l, e ≠ ppo_epoch - 1) :
    l.foldl
      (fun metrics e => append_clip_fraction ppo_epoch e clip (ratios e) metrics)
      m = m := by
  induction l generalizing m with
  | nil => rfl
  | cons e l ih =>
    have he : e ≠ ppo_epoch - 1 := h e (List.mem_cons_self e l)
    simp only [List.foldl_cons, append_clip_fraction, if_neg he]
    exact ih m (fun x hx => h x (List.mem_cons_of_mem e hx))

/-- C6: the fraction-clipped diagnostic counts exactly the samples whose
ratio is strictly above `1 + clip_param` or strictly below
`1 - clip_param` (values exactly at the boundaries are not counted), and
across the epoch loop of one `update` call it is appended only at the
final epoch `ppo_epoch - 1`, so the metric list ends up holding the
final epoch's value alone. -/
theorem c6_clip_fraction (clip : ℚ) (ratio : List ℚ) (ppo_epoch : ℕ)
    (ratios : ℕ → List ℚ) (hclip : 0 < clip) (hpe : 1 ≤ ppo_epoch) :
    fraction_clipped clip ratio =
      (((ratio.filter (fun r => decide (1 + clip < r))).length : ℚ) +
        ((ratio.filter (fun r => decide (r < 1 - clip))).length : ℚ)) /
        (ratio.length : ℚ) ∧
    fraction_clipped clip [1 + clip, 1 - clip] = 0 ∧
    clip_metric_after_update ppo_epoch clip ratios =
      [fraction_clipped clip (ratios (ppo_epoch - 1))] := by
  refine ⟨?_, ?_, ?_⟩
  · unfold fraction_clipped qmean
    rw [sum_indicator_eq_count (fun r => 1 + clip < r),
      sum_indicator_eq_count (fun r => r < 1 - clip)]
    simp only [List.length_map]
    rw [div_add_div_same]
  · unfold fraction_clipped qmean
    have hnb : ¬(1 + clip < 1 - clip) := by linarith
    simp [hnb]
  · unfold clip_metric_after_update
    obtain ⟨k, rfl⟩ : ∃ k, ppo_epoch = k + 1 :=
      ⟨ppo_epoch - 1, (Nat.succ_pred_eq_of_pos hpe).symm⟩
    rw [List.range_succ, List.foldl_append]
    rw [foldl_append_clip_of_ne (k + 1) clip ratios (List.range k) []
      (fun e he => by
        have : e < k := List.mem_range.mp he
        omega)]
    simp [append_clip_fraction]

/-- Witness for `c6_clip_fraction` at `clip = 1/5`, a ratio list with one
strictly-above sample, one boundary sample and one inside sample, and
`ppo_epoch = 3`. -/
theorem c6_clip_fraction_witness :
    fraction_clipped (1/5) [13/10, 6/5, 1] =
      ((([(13:ℚ)/10, 6/5, 1].filter
          (fun r => decide (1 + 1/5 < r))).length : ℚ) +
        (([(13:ℚ)/10, 6/5, 1].filter
          (fun r => decide (r < 1 - 1/5))).length : ℚ)) / 3 ∧
    clip_metric_after_update 3 (1/5) (fun _ => [13/10, 6/5, 1]) =
      [fraction_clipped (1/5) [13/10, 6/5, 1]] := by
  have h := c6_clip_fraction (1/5) [13/10, 6/5, 1] 3
    (fun _ => [13/10, 6/5, 1]) (by norm_num) (by norm_num)
  exact ⟨h.1, h.2.2⟩

/-! Entropy-coefficient initialization (source lines 97–111)

`self.entropy_coef` stays the configured float unless
`use_adaptive_entropy_pen` holds, `actor_critic` has a `num_actions`
attribute, and `getattr(actor_critic, "action_distribution_type", None)
== "gaussian"`; in that case it becomes a
`LagrangeInequalityCoefficient(-float(entropy_target_factor) *
num_actions, init_alpha=entropy_coef, alpha_max=1.0, alpha_min=1e-4,
greater_than=True)`.  Attribute presence is modelled with `Option`.
-/

/-- The attributes of the policy that the constructor inspects. -/
structure ActorCriticCaps where
  num_actions : Option ℕ
  action_distribution_type : Option String

/-- The entropy coefficient held by the updater: a fixed float or a
Lagrange inequality coefficient with its construction parameters. -/
inductive EntropyCoefSetting where
  | fixed (coef : ℚ)
  | adaptive (threshold init_alpha alpha_max alpha_min : ℚ)
      (greater_than : Bool)
  deriving DecidableEq

/-- Entropy-coefficient initialization from `PPO.__init__`. -/
def init_entropy_coef (use_adaptive_entropy_pen : Bool)
    (ac : ActorCriticCaps) (entropy_target_factor entropy_coef : ℚ) :
    EntropyCoefSetting :=
  match ac.num_actions with
  | some n =>
    if use_adaptive_entropy_pen ∧
        ac.action_distribution_type = some "gaussian" then
      .adaptive (-entropy_target_factor * n) entropy_coef 1 (1 / 10000) true
    else .fixed entropy_coef
  | none => .fixed entropy_coef

/-- C7: the adaptive entropy coefficient is activated iff
`use_adaptive_entropy_pen` holds, the policy has a `num_actions`
attribute and its `action_distribution_type` is `"gaussian"`; when
activated it carries threshold `-entropy_target_factor * num_actions`,
initial alpha `entropy_coef`, bounds `[1e-4, 1.0]` and
`greater_than = true`; in every other case the coefficient is the fixed
float `entropy_coef` and no error is raised (the initializer is total). -/
theorem c7_adaptive_entropy_init (use_pen : Bool) (ac : ActorCriticCaps)
    (etf coef : ℚ) (n : ℕ) :
    (ac.num_actions = some n → use_pen = true →
      ac.action_distribution_type = some "gaussian" →
      init_entropy_coef use_pen ac etf coef =
        .adaptive (-etf * n) coef 1 (1 / 10000) true) ∧
    (¬(use_pen = true ∧ (∃ m, ac.num_actions = some m) ∧
        ac.action_distribution_type = some "gaussian") →
      init_entropy_coef use_pen ac etf coef = .fixed coef) := by
  constructor
  · intro hn hp hd
    unfold init_entropy_coef
    rw [hn]
    simp [hp, hd]
  · intro h
    cases hn : ac.num_actions with
    | none => simp only [init_entropy_coef, hn]
    | some m =>
      simp only [init_entropy_coef, hn]
      rw [if_neg]
      intro ⟨hp, hd⟩
      exact h ⟨hp, ⟨m, hn⟩, hd⟩

/-- Witness for `c7_adaptive_entropy_init`: a Gaussian policy with three
actions activates adaptive mode with threshold `-(1/2) * 3`, and a
categorical policy stays at the fixed coefficient. -/
theorem c7_adaptive_entropy_init_witness :
    init_entropy_coef true ⟨some 3, some "gaussian"⟩ (1/2) (3/100) =
      .adaptive (-(1/2) * 3) (3/100) 1 (1 / 10000) true ∧
    init_entropy_coef true ⟨some 3, some "categorical"⟩ (1/2) (3/100) =
      .fixed (3/100) := by
  constructor
  · have h := (c7_adaptive_entropy_init true ⟨some 3, some "gaussian"⟩
      (1/2) (3/100) 3).1 rfl rfl rfl
    rw [h]
    norm_num
  · exact (c7_adaptive_entropy_init true ⟨some 3, some "categorical"⟩
      (1/2) (3/100) 3).2 (by simp)

/-! Resume state (source lines 448–455)

`get_resume_state` returns `{"optim_state": self.optimizer.state_dict()}`
and `load_state_dict` calls `self.optimizer.load_state_dict` only when
`"optim_state" in state`.  The optimizer state is an opaque value of
type `σ`; a checkpoint mapping is an association list keyed by strings.
-/

/-- The mapping returned by `get_resume_state`. -/
def get_resume_state {σ : Type} (optim_state : σ) : List (String × σ) :=
  [("optim_state", optim_state)]

/-- The optimizer state after `load_state_dict`: replaced by the stored
state when the key `"optim_state"` is present, untouched otherwise. -/
def load_state_dict {σ : Type} (current : σ) (state : List (String × σ)) : σ :=
  match state.lookup "optim_state" with
  | some s => s
  | none => current

/-- C9: `get_resume_state` stores the optimizer state under the key
`"optim_state"`; `load_state_dict` replaces the optimizer state exactly
when the given mapping contains that key, and leaves the optimizer
untouched (raising no error — the function is total) when it does not;
in particular the resume round-trip restores the captured state. -/
theorem c9_resume_state {σ : Type} (current optim_state : σ)
    (state : List (String × σ)) :
    (get_resume_state optim_state).lookup "optim_state" = some optim_state ∧
    (∀ s, state.lookup "optim_state" = some s →
      load_state_dict current state = s) ∧
    (state.lookup "optim_state" = none → load_state_dict current state = current) ∧
    load_state_dict current (get_resume_state optim_state) = optim_state := by
  refine ⟨rfl, fun s hs => ?_, fun hn => ?_, rfl⟩
  · unfold load_state_dict
    rw [hs]
  · unfold load_state_dict
    rw [hn]

/-- Witness for `c9_resume_state` over `σ = ℕ`: a mapping lacking the
key leaves the state `7` untouched, and the round-trip restores `42`. -/
theorem c9_resume_state_witness :
    load_state_dict 7 [("weights", 5)] = 7 ∧
    load_state_dict 7 (get_resume_state 42) = 42 := by
  have h := c9_resume_state (σ := ℕ) 7 42 [("weights", 5)]
  exact ⟨h.2.2.1 rfl, h.2.2.2⟩

/-! Construction glue and aux-loss weighting
(source lines 39–59, 282–295)

`from_config` forwards every configuration field except
`aux_loss_coef`, which is hard-coded to `0.0` (the read of
`config.aux_loss_coef` is commented out).  In `_update_from_batch`, an
attentive policy with a non-empty auxiliary task set contributes
`total_aux_loss * self.aux_loss_coef` to `all_losses`, where
`total_aux_loss = torch.sum(torch.stack(aux_raw_losses))`.
-/

/-- The configuration fields consumed by `from_config`. -/
structure PPOConfig where
  clip_param : ℚ
  ppo_epoch : ℕ
  num_mini_batch : ℕ
  value_loss_coef : ℚ
  entropy_coef : ℚ
  aux_loss_coef : ℚ
  max_grad_norm : ℚ
  use_clipped_value_loss : Bool
  use_normalized_advantage : Bool
  entropy_target_factor : ℚ
  use_adaptive_entropy_pen : Bool

/-- The corresponding constructor arguments stored on the updater. -/
structure PPOParams where
  clip_param : ℚ
  ppo_epoch : ℕ
  num_mini_batch : ℕ
  value_loss_coef : ℚ
  entropy_coef : ℚ
  aux_loss_coef : ℚ
  max_grad_norm : ℚ
  use_clipped_value_loss : Bool
  use_normalized_advantage : Bool
  entropy_target_factor : ℚ
  use_adaptive_entropy_pen : Bool

/-- Constructor `PPO.from_config`: every field is read from the configuration except
`aux_loss_coef`, which the source hard-codes to `0.0`. -/
def from_config (config : PPOConfig) : PPOParams where
  clip_param := config.clip_param
  ppo_epoch := config.ppo_epoch
  num_mini_batch := config.num_mini_batch
  value_loss_coef := config.value_loss_coef
  entropy_coef := config.entropy_coef
  aux_loss_coef := 0
  max_grad_norm := config.max_grad_norm
  use_clipped_value_loss := config.use_clipped_value_loss
  use_normalized_advantage := config.use_normalized_advantage
  entropy_target_factor := config.entropy_target_factor
  use_adaptive_entropy_pen := config.use_adaptive_entropy_pen

/-- The auxiliary term `total_aux_loss * self.aux_loss_coef` added to
`all_losses` on the attentive path. -/
def aux_loss_term (p : PPOParams) (aux_losses : List ℚ) : ℚ :=
  aux_losses.sum * p.aux_loss_coef

/-- The `all_losses` list built on the attentive path, with the entropy
contribution (fixed or Lagrangian) and the optional auxiliary entropy
term passed in already evaluated. -/
def all_losses_attentive (p : PPOParams) (value_loss action_loss : ℚ)
    (entropy_contribution : ℚ) (aux_losses : List ℚ)
    (aux_entropy_contribution : List ℚ) : List ℚ :=
  [p.value_loss_coef * value_loss, action_loss, aux_loss_term p aux_losses,
    entropy_contribution] ++ aux_entropy_contribution

/-- The scalar `total_loss = torch.stack(all_losses).sum()`. -/
def total_loss (all_losses : List ℚ) : ℚ := all_losses.sum

/-- An example configuration with a non-zero `aux_loss_coef`. -/
def cfg_example : PPOConfig where
  clip_param := 1/5
  ppo_epoch := 1
  num_mini_batch := 1
  value_loss_coef := 1/2
  entropy_coef := 1/100
  aux_loss_coef := 1
  max_grad_norm := 1/2
  use_clipped_value_loss := true
  use_normalized_advantage := true
  entropy_target_factor := 0
  use_adaptive_entropy_pen := false

/-- C8 counterexample: for an updater built via `from_config` from a
configuration whose `aux_loss_coef` is `1`, the auxiliary term actually
applied to the auxiliary losses `[1]` is `0`, not the configuration's
`aux_loss_coef` times their sum. -/
theorem c8_aux_coef_counterexample :
    aux_loss_term (from_config cfg_example) [1] ≠
      cfg_example.aux_loss_coef * ([(1 : ℚ)]).sum := by
  unfold aux_loss_term from_config cfg_example
  norm_num

/-- C8 (amended): an updater built via `from_config` has
`aux_loss_coef = 0` regardless of the configured value, so the weighted
auxiliary term of every minibatch's total loss is `0` and the total loss
is independent of the auxiliary losses. -/
theorem c8_aux_coef_amended (config : PPOConfig) (value_loss action_loss : ℚ)
    (entropy_contribution : ℚ)
    (aux_losses aux_losses' aux_entropy_contribution : List ℚ) :
    (from_config config).aux_loss_coef = 0 ∧
    aux_loss_term (from_config config) aux_losses = 0 ∧
    total_loss (all_losses_attentive (from_config config) value_loss
        action_loss entropy_contribution aux_losses
        aux_entropy_contribution) =
      total_loss (all_losses_attentive (from_config config) value_loss
        action_loss entropy_contribution aux_losses'
        aux_entropy_contribution) := by
  refine ⟨rfl, ?_, ?_⟩
  · unfold aux_loss_term from_config
    exact mul_zero _
  · unfold total_loss all_losses_attentive aux_loss_term from_config
    simp

/-! Distributed gradient synchronization (source lines 418–442)

`before_step` divides the present gradients of `self.non_ac_params` by
the world size and issues asynchronous all-reduce sums for them, clips
the gradient norm of `actor_critic.policy_parameters()` and of each
group of `actor_critic.aux_loss_parameters()`, then waits on every
issued handle and returns.  `_update_from_batch` calls
`self.optimizer.step()` right after `before_step` returns.

Gradients are `Option ℚ` (a `None` gradient is skipped).  The collective
is modelled from the global view: every worker holds the same parameter
layout, and a parameter slot whose gradient is present on every worker
receives the sum of the divided gradients.  `clip_grad_norm_` rescales a
group by a data-dependent factor involving a square root, so it is
modelled as an arbitrary group transform `clip_fn` passed as a
parameter; the claims about `before_step` hold for every such
transform.
-/

/-- One worker's gradients, split as the source splits its parameters:
`actor_critic.policy_parameters()`, the groups of
`actor_critic.aux_loss_parameters().values()`, and `self.non_ac_params`. -/
structure WorkerGrads where
  policy_grads : List (Option ℚ)
  aux_grads : List (List (Option ℚ))
  non_ac_grads : List (Option ℚ)

/-- The gradients held for one non-actor-critic parameter slot across
all workers. -/
def non_ac_column (workers : List WorkerGrads) (j : ℕ) : List (Option ℚ) :=
  workers.map (fun w => w.non_ac_grads.getD j none)

/-- Post-synchronization non-actor-critic gradients of one worker: each
present gradient is divided by the world size and all-reduce-summed with
the other workers' divided gradients; an absent gradient is skipped. -/
def sync_non_ac (world_size : ℕ) (workers : List WorkerGrads)
    (w : WorkerGrads) : List (Option ℚ) :=
  (List.range w.non_ac_grads.length).map (fun j =>
    match w.non_ac_grads.getD j none with
    | none => none
    | some _ =>
      some ((((non_ac_column workers j).filterMap id).map
        (fun g => g / (world_size : ℚ))).sum))

/-- Global effect of `before_step` on every worker's gradients: the
non-actor-critic gradients are divided and all-reduced when the
distributed group is initialized and left alone otherwise, while the
policy group and each auxiliary group pass through `clip_fn`
(`nn.utils.clip_grad_norm_`). -/
def before_step (distributed : Bool) (world_size : ℕ)
    (clip_fn : List (Option ℚ) → List (Option ℚ))
    (workers : List WorkerGrads) : List WorkerGrads :=
  workers.map (fun w =>
    { policy_grads := clip_fn w.policy_grads
      aux_grads := w.aux_grads.map clip_fn
      non_ac_grads :=
        if distributed then sync_non_ac world_size workers w
        else w.non_ac_grads })

/-- Events of one minibatch's synchronization, in program order:
issuing the asynchronous all-reduce for non-actor-critic parameter `j`,
norm-clipping the actor-critic groups, waiting on handle `j`, and the
optimizer step. -/
inductive SyncEvent where
  | issue (j : ℕ)
  | clip_groups
  | wait (j : ℕ)
  | optim_step
  deriving DecidableEq

/-- Indices of the non-actor-critic parameters whose gradient is
present, in order: exactly the handles `before_step` issues. -/
def issued_handles (non_ac_grads : List (Option ℚ)) : List ℕ :=
  (List.range non_ac_grads.length).filter
    (fun j => (non_ac_grads.getD j none).isSome)

/-- The event trace of `before_step` on one worker: issue all reduces
(when distributed), clip the actor-critic groups, then wait on every
issued handle before returning. -/
def before_step_trace (distributed : Bool)
    (non_ac_grads : List (Option ℚ)) : List SyncEvent :=
  (if distributed then (issued_handles non_ac_grads).map SyncEvent.issue
   else []) ++
  [SyncEvent.clip_groups] ++
  (if distributed then (issued_handles non_ac_grads).map SyncEvent.wait
   else [])

/-- The event trace of one minibatch step: `grad_norm =
self.before_step()` followed by `self.optimizer.step()`. -/
def minibatch_step_trace (distributed : Bool)
    (non_ac_grads : List (Option ℚ)) : List SyncEvent :=
  before_step_trace distributed non_ac_grads ++ [SyncEvent.optim_step]

/-- C4: with the distributed group initialized and two workers holding
present gradients `g1` and `g2` on a non-actor-critic parameter, the
post-synchronization gradient is `(g1 + g2) / 2` on both workers (each
gradient divided by the world size, then all-reduce-summed); the
actor-critic gradients are never divided or reduced, only passed through
the norm clip; and every issued all-reduce handle is awaited inside
`before_step`, whose whole trace precedes the optimizer step. -/
theorem c4_distributed_averaging (g1 g2 : ℚ)
    (p1 p2 : List (Option ℚ)) (a1 a2 : List (List (Option ℚ)))
    (clip_fn : List (Option ℚ) → List (Option ℚ))
    (distributed : Bool) (world_size : ℕ) (workers : List WorkerGrads)
    (non_ac_grads : List (Option ℚ)) :
    (before_step true 2 clip_fn
        [⟨p1, a1, [some g1]⟩, ⟨p2, a2, [some g2]⟩]).map
        (fun w => w.non_ac_grads) =
      [[some ((g1 + g2) / 2)], [some ((g1 + g2) / 2)]] ∧
    (before_step distributed world_size clip_fn workers).map
        (fun w => w.policy_grads) =
      workers.map (fun w => clip_fn w.policy_grads) ∧
    (∀ j, SyncEvent.issue j ∈ before_step_trace distributed non_ac_grads →
      SyncEvent.wait j ∈ before_step_trace distributed non_ac_grads) ∧
    minibatch_step_trace distributed non_ac_grads =
      before_step_trace distributed non_ac_grads ++ [SyncEvent.optim_step] := by
  refine ⟨?_, ?_, ?_, rfl⟩
  · have e1 : sync_non_ac 2
        [(⟨p1, a1, [some g1]⟩ : WorkerGrads), ⟨p2, a2, [some g2]⟩]
        ⟨p1, a1, [some g1]⟩ = [some ((g1 + g2) / 2)] := by
      simp [sync_non_ac, non_ac_column, List.range_succ]
      ring
    have e2 : sync_non_ac 2
        [(⟨p1, a1, [some g1]⟩ : WorkerGrads), ⟨p2, a2, [some g2]⟩]
        ⟨p2, a2, [some g2]⟩ = [some ((g1 + g2) / 2)] := by
      simp [sync_non_ac, non_ac_column, List.range_succ]
      ring
    simp only [before_step, List.map_cons, List.map_nil, if_pos, e1, e2]
  · unfold before_step
    rw [List.map_map]
    rfl
  · intro j hj
    unfold before_step_trace at hj ⊢
    cases distributed with
    | false =>
      rw [if_neg Bool.false_ne_true, List.nil_append] at hj
      rcases List.mem_append.mp hj with h | h
      · exact SyncEvent.noConfusion (List.mem_singleton.mp h)
      · rw [if_neg Bool.false_ne_true] at h
        exact absurd h (List.not_mem_nil _)
    | true =>
      rw [if_pos rfl] at hj ⊢
      rw [if_pos rfl] at hj ⊢
      have hjmem : j ∈ issued_handles non_ac_grads := by
        rcases List.mem_append.mp hj with h | h
        · rcases List.mem_append.mp h with h | h
          · obtain ⟨i, hi, hij⟩ := List.mem_map.mp h
            injection hij with hji
            exact hji ▸ hi
          · exact SyncEvent.noConfusion (List.mem_singleton.mp h)
        · obtain ⟨i, hi, hij⟩ := List.mem_map.mp h
          exact SyncEvent.noConfusion hij
      exact List.mem_append.mpr (Or.inr (List.mem_map.mpr ⟨j, hjmem, rfl⟩))

/-- Witness for `c4_distributed_averaging` with `g1 = 3`, `g2 = 5`, a
single present non-actor-critic gradient, and handle `0` issued. -/
theorem c4_distributed_averaging_witness :
    (before_step true 2 id
        [⟨[], [], [some 3]⟩, ⟨[], [], [some 5]⟩]).map
        (fun w => w.non_ac_grads) = [[some 4], [some 4]] ∧
    SyncEvent.wait 0 ∈ before_step_trace true [some (3 : ℚ)] := by
  have h := c4_distributed_averaging 3 5 [] [] [] [] id true 2 []
    [some (3 : ℚ)]
  constructor
  · rw [h.1]
    norm_num
  · exact h.2.2.1 0 (by decide)

/-- C10: gradient-norm clipping in `before_step` touches only the
actor-critic's policy group and auxiliary-loss groups; the
non-actor-critic gradients are independent of the clipping transform,
are left entirely unchanged when the distributed group is not
initialized, and when it is initialized are only divided by the world
size and all-reduced. -/
theorem c10_non_ac_not_clipped (world_size : ℕ) (distributed : Bool)
    (clip_fn clip_fn2 : List (Option ℚ) → List (Option ℚ))
    (workers : List WorkerGrads) :
    (before_step false world_size clip_fn workers).map
        (fun w => w.non_ac_grads) =
      workers.map (fun w => w.non_ac_grads) ∧
    (before_step distributed world_size clip_fn workers).map
        (fun w => w.non_ac_grads) =
      (before_step distributed world_size clip_fn2 workers).map
        (fun w => w.non_ac_grads) ∧
    (before_step true world_size clip_fn workers).map
        (fun w => w.non_ac_grads) =
      workers.map (sync_non_ac world_size workers) ∧
    (before_step distributed world_size clip_fn workers).map
        (fun w => w.policy_grads) =
      workers.map (fun w => clip_fn w.policy_grads) ∧
    (before_step distributed world_size clip_fn workers).map
        (fun w => w.aux_grads) =
      workers.map (fun w => w.aux_grads.map clip_fn) := by
  refine ⟨?_, ?_, ?_, ?_, ?_⟩ <;>
    · unfold before_step
      rw [List.map_map]
      try rw [List.map_map]
      rfl

/-! Advantage computation (source lines 164–182)

`get_advantages` forms `returns - value_preds`, returns it unchanged
unless `use_normalized_advantage`, and otherwise computes
`torch.var_mean` over the finite entries
(`advantages[torch.isfinite(advantages)]`), subtracts the mean from all
entries and multiplies all entries by `torch.rsqrt(var + EPS_PPO)`.

Tensor entries are `FVal`: a finite rational or a non-finite value
(NaN/Inf collapsed to one marker, since subtracting a finite shift from
a non-finite float and scaling it leave it non-finite).  The reciprocal
square root is irrational, so `torch.rsqrt` is a function parameter
`rsqrt_fn`, constrained in the theorem by its defining equation
`rsqrt_fn x ^ 2 * x = 1` at the point where the source applies it.
-/

/-- A tensor entry: a finite rational value or a non-finite value. -/
inductive FVal where
  | fin (q : ℚ)
  | nonfin
  deriving DecidableEq

/-- Elementwise subtraction; any non-finite operand gives a non-finite
result. -/
def fvSub : FVal → FVal → FVal
  | .fin a, .fin b => .fin (a - b)
  | _, _ => .nonfin

/-- The `torch.isfinite` test on one entry. -/
def isFiniteV : FVal → Bool
  | .fin _ => true
  | .nonfin => false

/-- Boolean-mask indexing `advantages[torch.isfinite(advantages)]`: the
finite values, in order. -/
def finiteVals (l : List FVal) : List ℚ :=
  l.filterMap (fun v => match v with | .fin q => some q | .nonfin => none)

/-- Shift `advantages -= mean`: subtracting a finite scalar from every entry;
non-finite entries stay non-finite. -/
def fvShift (l : List FVal) (m : ℚ) : List FVal :=
  l.map (fun v => match v with | .fin q => .fin (q - m) | .nonfin => .nonfin)

/-- Scale `advantages.mul_(scale)`: multiplying every entry by a scalar;
non-finite entries stay non-finite. -/
def fvScale (l : List FVal) (s : ℚ) : List FVal :=
  l.map (fun v => match v with | .fin q => .fin (q * s) | .nonfin => .nonfin)

/-- Embedding of `PPO.get_advantages`. -/
def get_advantages (rsqrt_fn : ℚ → ℚ) (use_normalized_advantage : Bool)
    (returns value_preds : List FVal) : List FVal :=
  let advantages := List.zipWith fvSub returns value_preds
  if use_normalized_advantage = false then advantages
  else
    fvScale (fvShift advantages (qmean (finiteVals advantages)))
      (rsqrt_fn (qvar (finiteVals advantages) + EPS_PPO))

/-- Shifting and scaling leave the finiteness mask of every entry
unchanged. -/
theorem isFiniteV_shift_scale (l : List FVal) (m s : ℚ) :
    (fvScale (fvShift l m) s).map isFiniteV = l.map isFiniteV := by
  unfold fvScale fvShift
  rw [List.map_map, List.map_map]
  congr 1
  funext v
  cases v <;> rfl

/-- The finite values of a shifted and scaled list are the shifted and
scaled finite values, in order. -/
theorem finiteVals_shift_scale (l : List FVal) (m s : ℚ) :
    finiteVals (fvScale (fvShift l m) s) =
      (finiteVals l).map (fun q => (q - m) * s) := by
  unfold finiteVals fvScale fvShift
  rw [List.map_map, List.filterMap_map, List.map_filterMap]
  congr 1
  funext v
  cases v <;> rfl

/-- Sum of an affinely transformed list. -/
theorem sum_map_affine (l : List ℚ) (m s : ℚ) :
    (l.map (fun q => (q - m) * s)).sum =
      (l.sum - (l.length : ℚ) * m) * s := by
  induction l with
  | nil => simp
  | cons a l ih =>
    simp only [List.map_cons, List.sum_cons, List.length_cons, ih]
    push_cast
    ring

/-- Mean of an affinely transformed non-empty list. -/
theorem qmean_affine (l : List ℚ) (m s : ℚ) (h : l ≠ []) :
    qmean (l.map (fun q => (q - m) * s)) = (qmean l - m) * s := by
  have hn : (l.length : ℚ) ≠ 0 := by
    simpa [List.length_eq_zero] using h
  unfold qmean
  rw [List.length_map, sum_map_affine]
  field_simp

/-- Centering at the list's own mean and scaling gives mean zero. -/
theorem qmean_center_scale (l : List ℚ) (s : ℚ) :
    qmean (l.map (fun q => (q - qmean l) * s)) = 0 := by
  cases l with
  | nil => simp [qmean]
  | cons a t =>
    rw [qmean_affine (a :: t) (qmean (a :: t)) s (List.cons_ne_nil a t)]
    ring

/-- Pulling a constant factor out of a mapped sum. -/
theorem sum_map_mul_const (l : List ℚ) (f : ℚ → ℚ) (c : ℚ) :
    (l.map (fun x => f x * c)).sum = (l.map f).sum * c := by
  induction l with
  | nil => simp
  | cons a l ih =>
    simp only [List.map_cons, List.sum_cons, ih]
    ring

/-- Sample variance of an affinely transformed list scales with the
square of the factor. -/
theorem qvar_affine (l : List ℚ) (m s : ℚ) :
    qvar (l.map (fun q => (q - m) * s)) = qvar l * s ^ 2 := by
  cases hl : l with
  | nil => simp [qvar, qmean]
  | cons a t =>
    rw [← hl]
    have hne : l ≠ [] := by
      rw [hl]
      exact List.cons_ne_nil a t
    unfold qvar
    rw [List.length_map, qmean_affine l m s hne, List.map_map]
    have hfun : ((fun x => (x - (qmean l - m) * s) ^ 2) ∘
        fun q => (q - m) * s) = fun q => (q - qmean l) ^ 2 * s ^ 2 := by
      funext q
      simp only [Function.comp_apply]
      ring
    rw [hfun, sum_map_mul_const l (fun q => (q - qmean l) ^ 2) (s ^ 2),
      mul_div_right_comm]

/-- C1: the raw advantages are `returns - value_preds` and are returned
unchanged when normalization is off; with normalization on, the mean and
sample variance are taken over the finite entries only, the mean is
subtracted from every entry and every entry is multiplied by
`rsqrt(var + 1e-5)` (non-finite entries staying non-finite); hence the
finite entries of the result have mean exactly `0` and sample variance
`var / (var + 1e-5)`, which is within `1/1000` of `1` whenever
`var ≥ 1/100`. -/
theorem c1_advantage_normalization (rsqrt_fn : ℚ → ℚ)
    (returns value_preds adv : List FVal) (s : ℚ)
    (hadv : adv = List.zipWith fvSub returns value_preds)
    (hs : s = rsqrt_fn (qvar (finiteVals adv) + EPS_PPO))
    (hrs : s ^ 2 * (qvar (finiteVals adv) + EPS_PPO) = 1) :
    get_advantages rsqrt_fn false returns value_preds = adv ∧
    (get_advantages rsqrt_fn true returns value_preds).map isFiniteV =
      adv.map isFiniteV ∧
    finiteVals (get_advantages rsqrt_fn true returns value_preds) =
      (finiteVals adv).map (fun q => (q - qmean (finiteVals adv)) * s) ∧
    qmean (finiteVals (get_advantages rsqrt_fn true returns value_preds)) =
      0 ∧
    (qvar (finiteVals adv) + EPS_PPO) *
        qvar (finiteVals (get_advantages rsqrt_fn true returns value_preds)) =
      qvar (finiteVals adv) ∧
    (1 / 100 ≤ qvar (finiteVals adv) →
      |qvar (finiteVals (get_advantages rsqrt_fn true returns value_preds))
        - 1| ≤ 1 / 1000) := by
  subst hadv
  have hga : get_advantages rsqrt_fn true returns value_preds =
      fvScale
        (fvShift (List.zipWith fvSub returns value_preds)
          (qmean (finiteVals (List.zipWith fvSub returns value_preds)))) s := by
    rw [hs]
    rfl
  have hfin : finiteVals (get_advantages rsqrt_fn true returns value_preds) =
      (finiteVals (List.zipWith fvSub returns value_preds)).map
        (fun q =>
          (q - qmean (finiteVals (List.zipWith fvSub returns value_preds))) *
            s) := by
    rw [hga, finiteVals_shift_scale]
  have hvar : qvar
      (finiteVals (get_advantages rsqrt_fn true returns value_preds)) =
      qvar (finiteVals (List.zipWith fvSub returns value_preds)) * s ^ 2 := by
    rw [hfin, qvar_affine]
  refine ⟨rfl, ?_, hfin, ?_, ?_, ?_⟩
  · rw [hga, isFiniteV_shift_scale]
  · rw [hfin, qmean_center_scale]
  · rw [hvar]
    linear_combination qvar (finiteVals (List.zipWith fvSub returns
      value_preds)) * hrs
  · intro hv
    rw [hvar]
    have heps : EPS_PPO = 1 / 100000 := rfl
    rw [heps] at hrs
    have h1 : qvar (finiteVals (List.zipWith fvSub returns value_preds)) *
        s ^ 2 - 1 = -(1 / 100000 * s ^ 2) := by
      linear_combination hrs
    rw [h1, abs_neg, abs_of_nonneg (by positivity)]
    have hs2 : s ^ 2 ≤ 100 := by
      nlinarith [sq_nonneg s]
    linarith

/-- Witness for `c1_advantage_normalization`: advantages
`[9/2000, 0, -9/2000]` plus one non-finite entry have sample variance
`81/4000000`, and `81/4000000 + 1e-5 = (11/2000)^2`, so the reciprocal
square root is the rational `2000/11`. -/
theorem c1_advantage_normalization_witness :
    (2000 / 11 : ℚ) ^ 2 *
        (qvar (finiteVals (List.zipWith fvSub
          [FVal.fin (9/2000), FVal.fin 0, FVal.fin (-9/2000), FVal.nonfin]
          [FVal.fin 0, FVal.fin 0, FVal.fin 0, FVal.fin 0])) + EPS_PPO) =
      1 ∧
    qmean (finiteVals (get_advantages (fun _ => 2000 / 11) true
        [FVal.fin (9/2000), FVal.fin 0, FVal.fin (-9/2000), FVal.nonfin]
        [FVal.fin 0, FVal.fin 0, FVal.fin 0, FVal.fin 0])) = 0 ∧
    (get_advantages (fun _ => 2000 / 11) true
        [FVal.fin (9/2000), FVal.fin 0, FVal.fin (-9/2000), FVal.nonfin]
        [FVal.fin 0, FVal.fin 0, FVal.fin 0, FVal.fin 0]).map isFiniteV =
      [true, true, true, false] := by
  have hrs : (2000 / 11 : ℚ) ^ 2 *
      (qvar (finiteVals (List.zipWith fvSub
        [FVal.fin (9/2000), FVal.fin 0, FVal.fin (-9/2000), FVal.nonfin]
        [FVal.fin 0, FVal.fin 0, FVal.fin 0, FVal.fin 0])) + EPS_PPO) =
      1 := by
    have hq : qvar (finiteVals (List.zipWith fvSub
        [FVal.fin (9/2000), FVal.fin 0, FVal.fin (-9/2000), FVal.nonfin]
        [FVal.fin 0, FVal.fin 0, FVal.fin 0, FVal.fin 0])) =
        81 / 4000000 := by
      norm_num [qvar, qmean, finiteVals, List.zipWith, fvSub,
        List.filterMap_cons]
    rw [hq, EPS_PPO]
    norm_num
  have h := c1_advantage_normalization (fun _ => 2000 / 11)
    [FVal.fin (9/2000), FVal.fin 0, FVal.fin (-9/2000), FVal.nonfin]
    [FVal.fin 0, FVal.fin 0, FVal.fin 0, FVal.fin 0]
    (List.zipWith fvSub
      [FVal.fin (9/2000), FVal.fin 0, FVal.fin (-9/2000), FVal.nonfin]
      [FVal.fin 0, FVal.fin 0, FVal.fin 0, FVal.fin 0])
    (2000 / 11) rfl rfl hrs
  refine ⟨hrs, h.2.2.2.1, ?_⟩
  rw [h.2.1]
  rfl

end PPOSpec
